import Mathlib

/-!
Verification of the ged2dot pipeline (GEDCOM → DOT converter).

This file gives a shallow embedding of the core of `ged2dot.py`:
the graph entities (`Individual`, `Family`, `Node`), the GEDCOM
tokenizer state machine (`GedcomImport`), the reference resolver,
the bounded breadth-first traversal (`bfs`) and the edge section of
the DOT serializer (`DotExport`).

Modelling conventions:
* Python object references are represented by entity identifiers
  (strings).  In any graph on which resolution succeeds, every
  referenced identifier matches exactly one entity (`graph_find`
  asserts this), so identifiers determine entities among the
  reachable part of the graph.
* Python exceptions (`assert`, `KeyError`, `ValueError`) are
  modelled with `Except`/`Option` results.
* The Python string operations used by the source (`strip`,
  `split(' ')`, slicing, `upper`, `lower`, `int(...)`, `" ".join`)
  are given executable character-list implementations (`py_strip`,
  `py_split`, ...) with the same semantics on the inputs the parser
  handles; Python slices by code point, which matches `List.drop` /
  `List.dropRight` on `String.data`.
* The mutable depth field written by `set_depth` during a traversal
  is modelled by carrying the assigned depth in the BFS queue: each
  node's depth is assigned exactly once, when it is first discovered,
  and read once, when it is dequeued.
* Byte-stream input is modelled as the list of strings obtained by
  splitting the stream on CRLF; the `while` loop of `bfs` is run on
  explicit fuel that dominates the number of iterations the Python
  loop can perform.
-/

/-! ## Python string primitives -/

/-- The ASCII whitespace characters stripped by Python's `strip()`. -/
def is_py_space (c : Char) : Bool :=
  c == ' ' || c == '\t' || c == '\n' || c == '\r' || c == '\x0b' || c == '\x0c'

/-- Mirrors Python `str.strip()` / `bytes.strip()`: remove whitespace
from both ends. -/
def py_strip (s : String) : String :=
  ⟨((s.data.dropWhile is_py_space).reverse.dropWhile is_py_space).reverse⟩

/-- Worker for `py_split`; `acc` holds the current piece reversed. -/
def split_chars_go (sep : Char) (acc : List Char) : List Char → List (List Char)
  | [] => [acc.reverse]
  | c :: cs =>
    if c == sep then acc.reverse :: split_chars_go sep [] cs
    else split_chars_go sep (c :: acc) cs

/-- Mirrors Python `str.split(sep)` for a one-character separator:
every occurrence separates, empty pieces are kept, and splitting the
empty string yields one empty piece. -/
def py_split (s : String) (sep : Char) : List String :=
  (split_chars_go sep [] s.data).map (fun cs => ⟨cs⟩)

/-- Mirrors the Python slice `s[n:]` (by code point). -/
def py_drop (s : String) (n : Nat) : String :=
  ⟨s.data.drop n⟩

/-- Mirrors the Python slice `s[:-n]` (by code point). -/
def py_dropRight (s : String) (n : Nat) : String :=
  ⟨s.data.take (s.data.length - n)⟩

/-- Mirrors Python `str.startswith`. -/
def py_startsWith (s p : String) : Bool :=
  p.data.isPrefixOf s.data

/-- Mirrors Python `str.endswith`. -/
def py_endsWith (s p : String) : Bool :=
  p.data.isSuffixOf s.data

/-- Mirrors Python `str.upper()` on the ASCII range. -/
def py_toUpper (s : String) : String :=
  ⟨s.data.map Char.toUpper⟩

/-- Mirrors Python `str.lower()` on the ASCII range. -/
def py_toLower (s : String) : String :=
  ⟨s.data.map Char.toLower⟩

/-- Accumulate a decimal number; `none` on the first non-digit. -/
def digits_to_nat_go (acc : Nat) : List Char → Option Nat
  | [] => some acc
  | c :: cs =>
    if c.isDigit then digits_to_nat_go (acc * 10 + (c.toNat - '0'.toNat)) cs
    else none

/-- Mirrors Python `int(s)` on an optionally signed decimal literal;
any other input raises `ValueError`, modelled as `none`. -/
def py_int (s : String) : Option Int :=
  match s.data with
  | [] => none
  | '-' :: ds => if ds.isEmpty then none else (digits_to_nat_go 0 ds).map (fun n => -(n : Int))
  | '+' :: ds => if ds.isEmpty then none else (digits_to_nat_go 0 ds).map (fun n => (n : Int))
  | ds => (digits_to_nat_go 0 ds).map (fun n => (n : Int))

/-- Mirrors Python `" ".join(l)`. -/
def py_join_space : List String → String
  | [] => ""
  | [x] => x
  | x :: xs => x ++ " " ++ py_join_space xs

/-! ## Graph entities -/

/-- Key-value pairs on an individual (class `IndividualConfig`). -/
structure IndividualConfig where
  note : String := ""
  birth : String := ""
  death : String := ""
deriving DecidableEq, Repr

/-- Mirrors `IndividualConfig.set_note`. -/
def IndividualConfig.set_note (c : IndividualConfig) (note : String) : IndividualConfig :=
  { c with note := note }

/-- Mirrors `IndividualConfig.set_birth`. -/
def IndividualConfig.set_birth (c : IndividualConfig) (birth : String) : IndividualConfig :=
  { c with birth := birth }

/-- Mirrors `IndividualConfig.set_death`. -/
def IndividualConfig.set_death (c : IndividualConfig) (death : String) : IndividualConfig :=
  { c with death := death }

/-- An individual (class `Individual`).  The resolved references
`famc` and `fams_list` hold the identifiers of the referenced
entities (the objects found by `graph_find`). -/
structure Individual where
  identifier : String := ""
  famc_id : String := ""
  famc : Option String := none
  fams_ids : List String := []
  fams_list : List String := []
  depth : Nat := 0
  forename : String := ""
  surname : String := ""
  sex : String := ""
  config : IndividualConfig := {}
deriving DecidableEq, Repr

/-- A family (class `Family`).  The resolved references `wife`,
`husb` and `child_list` hold the identifiers of the referenced
entities. -/
structure Family where
  identifier : String := ""
  wife_id : String := ""
  wife : Option String := none
  husb_id : String := ""
  husb : Option String := none
  child_ids : List String := []
  child_list : List String := []
  depth : Nat := 0
deriving DecidableEq, Repr

/-- A graph node is an individual or a family (base class `Node`). -/
inductive Node where
  | indi : Individual → Node
  | fam : Family → Node
deriving DecidableEq, Repr

/-- Mirrors `Node.get_identifier` (dispatched to the two variants). -/
def Node.get_identifier : Node → String
  | .indi i => i.identifier
  | .fam f => f.identifier

/-- Mirrors `graph_find`: the empty identifier yields no reference;
a non-empty identifier must match exactly one node, otherwise the
`assert len(results) == 1` fails (modelled as `Except.error`). -/
def graph_find (graph : List Node) (identifier : String) : Except String (Option Node) :=
  if identifier = "" then
    .ok none
  else
    match graph.filter (fun node => node.get_identifier == identifier) with
    | [r] => .ok (some r)
    | _ => .error "AssertionError"

/-! ## Gedcom parser -/

/-- Parser state of class `GedcomImport` (fields set in `__init__`). -/
structure ParserState where
  individual : Option Individual := none
  family : Option Family := none
  graph : List Node := []
  in_birt : Bool := false
  in_deat : Bool := false
deriving DecidableEq, Repr

/-- The initial parser state (`GedcomImport.__init__`). -/
def initState : ParserState := {}

/-- Mirrors `GedcomImport.__reset_flags`. -/
def reset_flags (s : ParserState) : ParserState :=
  if s.in_birt then { s with in_birt := false }
  else if s.in_deat then { s with in_deat := false }
  else s

/-- Mirrors `GedcomImport.__handle_level0`: finalize any in-progress
individual or family into the graph, then possibly start a new
in-progress entity from an `@ID@ INDI` / `@ID@ FAM` line. -/
def handle_level0 (s0 : ParserState) (line : String) : ParserState :=
  let s1 := match s0.individual with
    | some i => { s0 with graph := s0.graph ++ [Node.indi i], individual := none }
    | none => s0
  let s2 := match s1.family with
    | some f => { s1 with graph := s1.graph ++ [Node.fam f], family := none }
    | none => s1
  if py_startsWith line "@" ∧ py_endsWith line "INDI" then
    { s2 with individual := some { identifier := py_dropRight (py_drop line 1) 6 } }
  else if py_startsWith line "@" ∧ py_endsWith line "FAM" then
    { s2 with family := some { identifier := py_dropRight (py_drop line 1) 5 } }
  else s2

/-- Mirrors `GedcomImport.__handle_individual_config`: `BIRT`/`DEAT`
set the corresponding flag; `NOTE` stores the text after the tag on
the current individual. -/
def handle_individual_config (s : ParserState) (line : String) : ParserState :=
  let line_lead_token := (py_split line ' ').headD ""
  if line_lead_token = "BIRT" then { s with in_birt := true }
  else if line_lead_token = "DEAT" then { s with in_deat := true }
  else if line_lead_token = "NOTE" ∧ s.individual.isSome then
    { s with individual := s.individual.map (fun i => { i with config := i.config.set_note (py_drop line 5) }) }
  else s

/-- Mirrors `GedcomImport.__handle_level1`: reset the birth/death
flags, then dispatch on the leading token. -/
def handle_level1 (s0 : ParserState) (line : String) : ParserState :=
  let s := reset_flags s0
  let line_lead_token := (py_split line ' ').headD ""
  if line_lead_token = "SEX" ∧ s.individual.isSome then
    let tokens := py_split line ' '
    if tokens.length > 1 then
      { s with individual := s.individual.map (fun i => { i with sex := tokens.getD 1 "" }) }
    else s
  else if line_lead_token = "NAME" ∧ s.individual.isSome then
    let tokens := py_split (py_drop line 5) '/'
    { s with individual := s.individual.map (fun i =>
        let i := { i with forename := py_strip (tokens.headD "") }
        if tokens.length > 1 then { i with surname := py_strip (tokens.getD 1 "") } else i) }
  else if line_lead_token = "FAMC" ∧ s.individual.isSome then
    { s with individual := s.individual.map (fun i =>
        if i.famc_id = "" then { i with famc_id := py_dropRight (py_drop line 6) 1 } else i) }
  else if line_lead_token = "FAMS" ∧ s.individual.isSome then
    { s with individual := s.individual.map (fun i =>
        { i with fams_ids := i.fams_ids ++ [py_dropRight (py_drop line 6) 1] }) }
  else if line_lead_token = "HUSB" ∧ s.family.isSome then
    { s with family := s.family.map (fun f => { f with husb_id := py_dropRight (py_drop line 6) 1 }) }
  else if line_lead_token = "WIFE" ∧ s.family.isSome then
    { s with family := s.family.map (fun f => { f with wife_id := py_dropRight (py_drop line 6) 1 }) }
  else if line_lead_token = "CHIL" ∧ s.family.isSome then
    { s with family := s.family.map (fun f => { f with child_ids := f.child_ids ++ [py_dropRight (py_drop line 6) 1] }) }
  else
    handle_individual_config s line

/-- Mirrors the `level == 2` branch of `tokenize_from_stream`: only
`DATE` lines are consulted, and only while a birth/death flag is set. -/
def handle_level2 (s : ParserState) (rest : String) : ParserState :=
  if py_startsWith rest "DATE" ∧ s.individual.isSome then
    let year := (py_split rest ' ').getLastD ""
    if s.in_birt then
      { s with individual := s.individual.map (fun i => { i with config := i.config.set_birth year }) }
    else if s.in_deat then
      { s with individual := s.individual.map (fun i => { i with config := i.config.set_death year }) }
    else s
  else s

/-- One iteration of the line loop of `tokenize_from_stream`: strip
the line, skip it when empty, strip a leading byte-order-mark from
the first token, parse the level (`int(...)`, a `ValueError` on
non-numeric input is modelled as `Except.error`) and dispatch. -/
def processLine (s : ParserState) (raw : String) : Except String ParserState :=
  let line := py_strip raw
  if line = "" then .ok s
  else
    let tokens := py_split line ' '
    let first_token := tokens.headD ""
    let first_token := if py_startsWith first_token "\uFEFF" then py_drop first_token 1 else first_token
    match py_int first_token with
    | none => .error "ValueError"
    | some level =>
      let rest := py_join_space (tokens.drop 1)
      .ok (if level = 0 then handle_level0 s rest
           else if level = 1 then handle_level1 s rest
           else if level = 2 then handle_level2 s rest
           else s)

/-- Mirrors `GedcomImport.tokenize_from_stream`: run the line loop
from the initial state and return the `graph` field of the final
state.  Note that the loop itself performs no end-of-stream flush of
a still-in-progress entity. -/
def tokenize_from_stream (lines : List String) : Except String (List Node) :=
  (lines.foldlM processLine initState).map (fun s => s.graph)

/-! ## Resolver -/

/-- The inner loop of `Individual.resolve`: for each spouse-family
id, look it up (the `assert fams` fails when the id is empty) and
append the found family to `fams_list`. -/
def resolve_fams (graph : List Node) : List String → Individual → Except String Individual
  | [], acc => .ok acc
  | fams_id :: rest, acc =>
    match graph_find graph fams_id with
    | .error e => .error e
    | .ok none => .error "AssertionError"
    | .ok (some fams) =>
      resolve_fams graph rest { acc with fams_list := acc.fams_list ++ [fams.get_identifier] }

/-- Mirrors `Individual.resolve`: overwrite `famc` with the result of
looking up `famc_id`, then append every resolved spouse family to
`fams_list`. -/
def Individual.resolve (i : Individual) (graph : List Node) : Except String Individual :=
  match graph_find graph i.famc_id with
  | .error e => .error e
  | .ok famc => resolve_fams graph i.fams_ids { i with famc := famc.map Node.get_identifier }

/-- The inner loop of `Family.resolve`: for each child id, look it up
(the `assert child` fails when the id is empty) and append the found
child to `child_list`. -/
def resolve_children (graph : List Node) : List String → Family → Except String Family
  | [], acc => .ok acc
  | child_id :: rest, acc =>
    match graph_find graph child_id with
    | .error e => .error e
    | .ok none => .error "AssertionError"
    | .ok (some child) =>
      resolve_children graph rest { acc with child_list := acc.child_list ++ [child.get_identifier] }

/-- Mirrors `Family.resolve`: overwrite `wife` and `husb` with the
results of looking up `wife_id` and `husb_id`, then append every
resolved child to `child_list`. -/
def Family.resolve (f : Family) (graph : List Node) : Except String Family :=
  match graph_find graph f.wife_id with
  | .error e => .error e
  | .ok wife =>
    match graph_find graph f.husb_id with
    | .error e => .error e
    | .ok husb =>
      resolve_children graph f.child_ids
        { f with wife := wife.map Node.get_identifier, husb := husb.map Node.get_identifier }

/-- The resolution pass of `GedcomImport.load`: call `resolve` on
every node of the graph.  `graph_find` only reads identifiers, which
`resolve` never changes, so resolving against the original graph is
equivalent to the in-place Python iteration. -/
def resolve_graph (g : List Node) : Except String (List Node) :=
  g.mapM (fun n => match n with
    | Node.indi i => (i.resolve g).map Node.indi
    | Node.fam f => (f.resolve g).map Node.fam)

/-! ## Bounded breadth-first traversal -/

/-- Mirrors `get_neighbours` of both variants: a family lists its
wife, then its husband, then its children; an individual lists its
parent family, then its spouse families. -/
def Node.get_neighbours : Node → List String
  | .indi i => i.famc.toList ++ i.fams_list
  | .fam f => f.wife.toList ++ f.husb.toList ++ f.child_list

/-- Find the node carrying an identifier (the object a resolved
reference points at; unique whenever resolution succeeded). -/
def lookup_node (g : List Node) (id : String) : Option Node :=
  g.find? (fun n => n.get_identifier == id)

/-- Neighbour identifiers of the node carrying an identifier. -/
def neighbours_of (g : List Node) (id : String) : List String :=
  match lookup_node g id with
  | some n => n.get_neighbours
  | none => []

/-- The inner `for neighbour in node.get_neighbours()` loop of `bfs`:
every neighbour not yet visited is marked visited and enqueued with
depth `d` (the depth of the dequeued node plus one). -/
def bfs_enqueue (d : Nat) : List String → List String × List (String × Nat) → List String × List (String × Nat)
  | [], st => st
  | n :: ns, (visited, queue) =>
    if n ∈ visited then bfs_enqueue d ns (visited, queue)
    else bfs_enqueue d ns (visited ++ [n], queue ++ [(n, d)])

/-- The `while queue` loop of `bfs`, with explicit fuel.  A dequeued
node whose depth exceeds `familydepth * 2 + 1` terminates the whole
traversal; otherwise it is appended to the result and its unvisited
neighbours are enqueued at depth one more. -/
def bfs_loop (g : List Node) (familydepth : Nat) : Nat → List String → List (String × Nat) → List String → List String
  | 0, _, _, ret => ret
  | _ + 1, _, [], ret => ret
  | fuel + 1, visited, (nid, nd) :: rest, ret =>
    if nd > familydepth * 2 + 1 then ret
    else
      let vq := bfs_enqueue (nd + 1) (neighbours_of g nid) (visited, rest)
      bfs_loop g familydepth fuel vq.1 vq.2 (ret ++ [nid])

/-- Fuel that dominates the number of iterations the Python `while`
loop can perform: every iteration dequeues an entry, every entry was
enqueued exactly once, and each distinct identifier is enqueued at
most once (the visited check), so the iteration count is bounded by
one (the root) plus the total number of neighbour slots in the graph. -/
def bfs_fuel (g : List Node) : Nat :=
  1 + g.length + (g.map (fun n => n.get_neighbours.length)).sum

/-- Mirrors `bfs`: breadth-first traversal from `root`, whose depth
field is 0 for a freshly parsed graph. -/
def bfs (g : List Node) (familydepth : Nat) (root : String) : List String :=
  bfs_loop g familydepth (bfs_fuel g) [root] [(root, 0)] []

/-! ## Dot serializer -/

/-- The DOT lines the `__store_edges` loop body writes for one family
node: an undirected wife edge if the wife reference is resolved, an
undirected husband edge if the husband reference is resolved, and one
undirected edge per resolved child. -/
def Family.edges (f : Family) : List String :=
  (match f.wife with
   | some w => [w ++ " -> " ++ f.identifier ++ " [dir=none];\n"]
   | none => []) ++
  (match f.husb with
   | some h => [h ++ " -> " ++ f.identifier ++ " [dir=none];\n"]
   | none => []) ++
  f.child_list.map (fun child => f.identifier ++ " -> " ++ child ++ " [dir=none];\n")

/-- Mirrors `DotExport.__store_edges`: iterate over the subgraph,
skip individuals, and write the edge lines of every family node, in
order.  The byte stream is modelled as the list of written lines. -/
def store_edges (subgraph : List Node) : List String :=
  subgraph.foldl (fun acc n =>
    match n with
    | Node.indi _ => acc
    | Node.fam f => acc ++ f.edges) []

/-- Mirrors `Individual.get_color`: the dictionary lookup on an
unknown key raises `KeyError`, modelled as `none`. -/
def Individual.get_color (i : Individual) : Option String :=
  let sex := if i.sex = "" then "U" else py_toUpper i.sex
  if sex = "M" then some "blue"
  else if sex = "F" then some "pink"
  else if sex = "U" then some "black"
  else none

/-- Mirrors `os.path.join` for two components (POSIX semantics). -/
def path_join (a b : String) : String :=
  if py_startsWith b "/" then b
  else if a = "" ∨ py_endsWith a "/" then a ++ b
  else a ++ "/" ++ b

/-- Mirrors `get_abspath`; the directory of the program's own install
location (`os.path.dirname(os.path.realpath(__file__))`) is passed in
as `install_dir`. -/
def get_abspath (install_dir : String) (path : String) : String :=
  if py_startsWith path "/" then path else path_join install_dir path

/-- The image-path selection of `Individual.get_label` (lines
254-261): the candidate path built from the image directory, the
names, and the birth year; if no file exists there (`os.path.exists`
is passed in as the oracle `file_exists`), fall back to a placeholder
selected by the lowercase sex character, `u` when sex is unset. -/
def Individual.image_path (i : Individual) (file_exists : String → Bool) (install_dir image_dir : String) : String :=
  let candidate := path_join image_dir (i.forename ++ " " ++ i.surname) ++ " " ++ i.config.birth ++ ".jpg"
  if file_exists candidate then candidate
  else
    let sex := if i.sex ≠ "" then py_toLower i.sex else "u"
    get_abspath install_dir ("placeholder-" ++ sex ++ ".png")

/-- Mirrors `Individual.get_label`: an HTML-like table with the image
and the name lines, big-endian or little-endian name order, ending
with the birth-death line. -/
def Individual.get_label (i : Individual) (file_exists : String → Bool) (install_dir image_dir name_order : String) : String :=
  let image_path := i.image_path file_exists install_dir image_dir
  let label := "<table border=\"0\" cellborder=\"0\"><tr><td>"
  let label := label ++ "<img src=\"" ++ image_path ++ "\"/>"
  let label := label ++ "</td></tr><tr><td>"
  let label :=
    if name_order = "big" then label ++ i.surname ++ "<br/>" ++ i.forename ++ "<br/>"
    else label ++ i.forename ++ "<br/>" ++ i.surname ++ "<br/>"
  let label := label ++ i.config.birth ++ "-" ++ i.config.death
  label ++ "</td></tr></table>"

/-! ## Concrete graphs used by witnesses and counterexamples -/

/-- Concrete one-node graph used by the `graph_find` witness. -/
def g8 : List Node := [Node.indi { identifier := "P1" }]

/-- An unresolved four-entity graph: family `F1` with wife `P1`,
husband `P2` and child `P3`. -/
def g6 : List Node :=
  [Node.fam { identifier := "F1", wife_id := "P1", husb_id := "P2", child_ids := ["P3"] },
   Node.indi { identifier := "P1", fams_ids := ["F1"] },
   Node.indi { identifier := "P2", fams_ids := ["F1"] },
   Node.indi { identifier := "P3", famc_id := "F1" }]

/-- The graph `g6` after resolution. -/
def rg6 : List Node :=
  [Node.fam { identifier := "F1", wife_id := "P1", wife := some "P1", husb_id := "P2",
              husb := some "P2", child_ids := ["P3"], child_list := ["P3"] },
   Node.indi { identifier := "P1", fams_ids := ["F1"], fams_list := ["F1"] },
   Node.indi { identifier := "P2", fams_ids := ["F1"], fams_list := ["F1"] },
   Node.indi { identifier := "P3", famc_id := "F1", famc := some "F1" }]

/-- A resolved graph whose root family has a wife and husband and no
children, used by the C6 witness. -/
def g6w : List Node :=
  [Node.fam { identifier := "F1", wife := some "P1", husb := some "P2" },
   Node.indi { identifier := "P1", fams_list := ["F1"] },
   Node.indi { identifier := "P2", fams_list := ["F1"] }]

/-- The edge lines written for one subgraph entry: none for an
individual, the family's wife/husband/child edges for a family. -/
def node_edges : Node → List String
  | .indi _ => []
  | .fam f => f.edges

/-- A subgraph holding only a family (with both spouses present as
nodes) whose resolved child `P3` is not part of the subgraph. -/
def sub4 : List Node :=
  [Node.fam { identifier := "F1", wife := some "P1", husb := some "P2",
              child_list := ["P3"] },
   Node.indi { identifier := "P1" },
   Node.indi { identifier := "P2" }]

/-! ## Claims -/

/-- C8: `graph_find` silently yields no reference for an empty
symbolic id; a non-empty id matching exactly one entity returns that
entity; a non-empty id matching zero or several entities signals the
internal-consistency assertion failure. -/
theorem c8_graph_find_theorem (g : List Node) (id : String) :
    (id = "" → graph_find g id = .ok none)
    ∧ (∀ n, id ≠ "" → g.filter (fun node => node.get_identifier == id) = [n] →
        graph_find g id = .ok (some n) ∧ n ∈ g ∧ n.get_identifier = id)
    ∧ (id ≠ "" → (g.filter (fun node => node.get_identifier == id)).length ≠ 1 →
        graph_find g id = .error "AssertionError") := by
  refine ⟨fun h => by simp [graph_find, h], fun n hne hf => ?_, fun hne hlen => ?_⟩
  · have hmem : n ∈ g.filter (fun node => node.get_identifier == id) := by
      rw [hf]; exact List.mem_singleton.mpr rfl
    refine ⟨?_, List.mem_of_mem_filter hmem, ?_⟩
    · unfold graph_find
      rw [if_neg hne, hf]
    · have := List.of_mem_filter hmem
      exact eq_of_beq this
  · unfold graph_find
    rw [if_neg hne]
    rcases hl : g.filter (fun node => node.get_identifier == id) with _ | ⟨a, _ | ⟨b, t⟩⟩
    · rw [hl]
    · exact absurd (by rw [hl]; rfl) hlen
    · rw [hl]

/-- C8 witness: the three branches of the `graph_find` contract at a
concrete graph. -/
theorem c8_graph_find_witness :
    graph_find g8 "" = .ok none
    ∧ (graph_find g8 "P1" = .ok (some (Node.indi { identifier := "P1" }))
        ∧ Node.indi { identifier := "P1" } ∈ g8
        ∧ (Node.indi { identifier := "P1" }).get_identifier = "P1")
    ∧ graph_find g8 "ZZ" = .error "AssertionError" :=
  ⟨(c8_graph_find_theorem g8 "").1 rfl,
   (c8_graph_find_theorem g8 "P1").2.1 _ (by decide) (by decide),
   (c8_graph_find_theorem g8 "ZZ").2.2 (by decide) (by decide)⟩

/-- Composing the line loop over concatenated input. -/
theorem foldlM_processLine_append (l1 l2 : List String) (s : ParserState) :
    (l1 ++ l2).foldlM processLine s
      = (l1.foldlM processLine s).bind (fun s2 => l2.foldlM processLine s2) := by
  induction l1 generalizing s with
  | nil => rfl
  | cons a l ih =>
    simp only [List.cons_append, List.foldlM_cons]
    cases h : processLine s a with
    | error e => rfl
    | ok s1 => exact ih s1

/-- Flushing effect of a level-0 line that starts no new record. -/
theorem handle_level0_trlr (s : ParserState) :
    handle_level0 s "TRLR"
      = { s with
          graph := s.graph ++ (s.individual.map Node.indi).toList
                    ++ (s.family.map Node.fam).toList,
          individual := none, family := none } := by
  have h1 : py_startsWith "TRLR" "@" = false := by decide
  obtain ⟨si, sf, sg, sb, sd⟩ := s
  cases si <;> cases sf <;> simp [handle_level0, h1]

/-- Processing the standard trailer line `0 TRLR` appends any
in-progress individual and family (in that order) to the graph and
clears both in-progress slots. -/
theorem processLine_trlr (s : ParserState) :
    processLine s "0 TRLR"
      = .ok { s with
              graph := s.graph ++ (s.individual.map Node.indi).toList
                        ++ (s.family.map Node.fam).toList,
              individual := none, family := none } := by
  have h0 : processLine s "0 TRLR" = .ok (handle_level0 s "TRLR") := rfl
  rw [h0, handle_level0_trlr]

/-- C1: amended.  The tokenizer appends a still-in-progress entity to
the graph only when a subsequent level-0 line is processed: for any
input, appending a final level-0 line (the standard `0 TRLR` trailer)
flushes the pending individual or family into the returned graph,
whereas without such a line the pending entity is dropped (see the
counterexample). -/
theorem c1_level0_flush_theorem (lines : List String) :
    tokenize_from_stream (lines ++ ["0 TRLR"])
      = (lines.foldlM processLine initState).map (fun s =>
          s.graph ++ (s.individual.map Node.indi).toList
            ++ (s.family.map Node.fam).toList) := by
  unfold tokenize_from_stream
  rw [foldlM_processLine_append]
  cases h : lines.foldlM processLine initState with
  | error e => rfl
  | ok s =>
    rw [show (Except.ok s).bind (fun s2 => List.foldlM processLine s2 ["0 TRLR"])
          = processLine s "0 TRLR" >>= pure from rfl, processLine_trlr]
    rfl

/-- C1: counterexample.  A stream whose last record is not followed
by a level-0 line loses that record: a single `0 @I1@ INDI` line
produces an empty graph, while the same stream followed by a level-0
trailer produces the individual. -/
theorem c1_no_flush_counterexample :
    tokenize_from_stream ["0 @I1@ INDI"] = .ok []
    ∧ tokenize_from_stream ["0 @I1@ INDI", "0 TRLR"]
        = .ok [Node.indi { identifier := "I1" }] := by
  constructor <;> rfl

/-- C3: the failing input of the repository's own multiline-note
test.  The parser stores only the text of the single `NOTE` line on
the individual: the `2 CONT` continuation lines are ignored (the
level-2 branch only consults `DATE`), `set_note` replaces rather than
appends, and the stored note contains no newline at all, where the
test expects the three lines joined by two newlines. -/
theorem c3_multiline_note_eval :
    tokenize_from_stream
        ["0 @P2@ INDI", "1 NOTE This is a note with", "2 CONT 3", "2 CONT lines", "0 TRLR"]
      = .ok [Node.indi { identifier := "P2", config := { note := "This is a note with" } }]
    ∧ '\n' ∉ "This is a note with".data := by
  exact ⟨rfl, by decide⟩

/-- What one pass of the `fams_ids` loop does, as a function of the
accumulator: it appends a fixed list of resolved identifiers. -/
theorem resolve_fams_spec (g : List Node) (ids : List String) (acc out : Individual)
    (h : resolve_fams g ids acc = .ok out) :
    ∃ r, out = { acc with fams_list := acc.fams_list ++ r }
      ∧ ∀ acc2 : Individual,
          resolve_fams g ids acc2 = .ok { acc2 with fams_list := acc2.fams_list ++ r } := by
  induction ids generalizing acc with
  | nil =>
    simp only [resolve_fams, Except.ok.injEq] at h
    subst h
    exact ⟨[], by simp, fun acc2 => by simp [resolve_fams]⟩
  | cons id rest ih =>
    unfold resolve_fams at h
    cases hf : graph_find g id with
    | error e => rw [hf] at h; exact absurd h (by simp)
    | ok o =>
      cases o with
      | none => rw [hf] at h; exact absurd h (by simp)
      | some nd =>
        rw [hf] at h
        obtain ⟨r, hout, hall⟩ := ih _ h
        refine ⟨nd.get_identifier :: r, ?_, fun acc2 => ?_⟩
        · rw [hout]; simp
        · simp only [resolve_fams, hf]
          rw [hall { acc2 with fams_list := acc2.fams_list ++ [nd.get_identifier] }]
          simp

/-- What one pass of the `child_ids` loop does, as a function of the
accumulator: it appends a fixed list of resolved identifiers. -/
theorem resolve_children_spec (g : List Node) (ids : List String) (acc out : Family)
    (h : resolve_children g ids acc = .ok out) :
    ∃ r, out = { acc with child_list := acc.child_list ++ r }
      ∧ ∀ acc2 : Family,
          resolve_children g ids acc2 = .ok { acc2 with child_list := acc2.child_list ++ r } := by
  induction ids generalizing acc with
  | nil =>
    simp only [resolve_children, Except.ok.injEq] at h
    subst h
    exact ⟨[], by simp, fun acc2 => by simp [resolve_children]⟩
  | cons id rest ih =>
    unfold resolve_children at h
    cases hf : graph_find g id with
    | error e => rw [hf] at h; exact absurd h (by simp)
    | ok o =>
      cases o with
      | none => rw [hf] at h; exact absurd h (by simp)
      | some nd =>
        rw [hf] at h
        obtain ⟨r, hout, hall⟩ := ih _ h
        refine ⟨nd.get_identifier :: r, ?_, fun acc2 => ?_⟩
        · rw [hout]; simp
        · simp only [resolve_children, hf]
          rw [hall { acc2 with child_list := acc2.child_list ++ [nd.get_identifier] }]
          simp

/-- C2: amended.  A second `resolve` call on the same graph leaves
the scalar reference fields (`famc`; `wife`, `husb`) unchanged, since
they are overwritten, but appends a second copy of every resolved
reference to the list fields: for an entity whose list field started
empty (as the parser constructs it), the second call exactly doubles
`fams_list` (respectively `child_list`), so resolution is not
idempotent on the list-valued reference fields. -/
theorem c2_resolve_second_duplicates :
    (∀ (g : List Node) (i j k : Individual), i.fams_list = [] →
        i.resolve g = .ok j → j.resolve g = .ok k →
        k.famc = j.famc ∧ k.fams_ids = j.fams_ids
          ∧ k.fams_list = j.fams_list ++ j.fams_list)
    ∧ (∀ (g : List Node) (f j k : Family), f.child_list = [] →
        f.resolve g = .ok j → j.resolve g = .ok k →
        k.wife = j.wife ∧ k.husb = j.husb ∧ k.child_ids = j.child_ids
          ∧ k.child_list = j.child_list ++ j.child_list) := by
  constructor
  · intro g i j k hnil h1 h2
    unfold Individual.resolve at h1 h2
    cases hfa : graph_find g i.famc_id with
    | error e => rw [hfa] at h1; exact absurd h1 (by simp)
    | ok famc =>
      rw [hfa] at h1
      obtain ⟨r, hj, hall⟩ := resolve_fams_spec _ _ _ _ h1
      have hfid : j.famc_id = i.famc_id := by rw [hj]
      have hfids : j.fams_ids = i.fams_ids := by rw [hj]
      have hjfamc : j.famc = famc.map Node.get_identifier := by rw [hj]
      have hjl : j.fams_list = r := by rw [hj]; simp [hnil]
      simp only [hfid, hfa] at h2
      rw [hfids] at h2
      rw [hall] at h2
      simp only [Except.ok.injEq] at h2
      refine ⟨?_, ?_, ?_⟩
      · rw [← h2, hjfamc]
      · rw [← h2, hfids]
      · rw [← h2]
        show j.fams_list ++ r = j.fams_list ++ j.fams_list
        rw [hjl]
  · intro g f j k hnil h1 h2
    unfold Family.resolve at h1 h2
    cases hfa : graph_find g f.wife_id with
    | error e => rw [hfa] at h1; exact absurd h1 (by simp)
    | ok wife =>
      rw [hfa] at h1
      cases hfb : graph_find g f.husb_id with
      | error e => rw [hfb] at h1; exact absurd h1 (by simp)
      | ok husb =>
        rw [hfb] at h1
        obtain ⟨r, hj, hall⟩ := resolve_children_spec _ _ _ _ h1
        have hwid : j.wife_id = f.wife_id := by rw [hj]
        have hhid : j.husb_id = f.husb_id := by rw [hj]
        have hcids : j.child_ids = f.child_ids := by rw [hj]
        have hjw : j.wife = wife.map Node.get_identifier := by rw [hj]
        have hjh : j.husb = husb.map Node.get_identifier := by rw [hj]
        have hjl : j.child_list = r := by rw [hj]; simp [hnil]
        simp only [hwid, hfa, hhid, hfb] at h2
        rw [hcids] at h2
        rw [hall] at h2
        simp only [Except.ok.injEq] at h2
        refine ⟨?_, ?_, ?_, ?_⟩
        · rw [← h2, hjw]
        · rw [← h2, hjh]
        · rw [← h2, hcids]
        · rw [← h2]
          show j.child_list ++ r = j.child_list ++ j.child_list
          rw [hjl]

/-- C2: counterexample.  Resolving an individual with one spouse
family twice against the same graph duplicates the `fams_list` entry,
so the resolved reference set after the second call differs from the
set after the first call. -/
theorem c2_resolve_counterexample :
    Individual.resolve { fams_ids := ["F1"] } [Node.fam { identifier := "F1" }]
        = .ok { fams_ids := ["F1"], fams_list := ["F1"] }
    ∧ Individual.resolve { fams_ids := ["F1"], fams_list := ["F1"] }
          [Node.fam { identifier := "F1" }]
        = .ok { fams_ids := ["F1"], fams_list := ["F1", "F1"] } := by
  exact ⟨rfl, rfl⟩

/-- C2 witness: the doubling theorem applied at a one-family graph,
for both entity kinds. -/
theorem c2_resolve_second_duplicates_witness :
    (({ fams_ids := ["F1"], fams_list := ["F1", "F1"] } : Individual).famc
        = ({ fams_ids := ["F1"], fams_list := ["F1"] } : Individual).famc
      ∧ ({ fams_ids := ["F1"], fams_list := ["F1", "F1"] } : Individual).fams_ids
        = ({ fams_ids := ["F1"], fams_list := ["F1"] } : Individual).fams_ids
      ∧ ({ fams_ids := ["F1"], fams_list := ["F1", "F1"] } : Individual).fams_list
        = ["F1"] ++ ["F1"])
    ∧ (({ child_ids := ["P1"], child_list := ["P1", "P1"] } : Family).wife
        = ({ child_ids := ["P1"], child_list := ["P1"] } : Family).wife
      ∧ ({ child_ids := ["P1"], child_list := ["P1", "P1"] } : Family).husb
        = ({ child_ids := ["P1"], child_list := ["P1"] } : Family).husb
      ∧ ({ child_ids := ["P1"], child_list := ["P1", "P1"] } : Family).child_ids
        = ({ child_ids := ["P1"], child_list := ["P1"] } : Family).child_ids
      ∧ ({ child_ids := ["P1"], child_list := ["P1", "P1"] } : Family).child_list
        = ["P1"] ++ ["P1"]) :=
  ⟨c2_resolve_second_duplicates.1 [Node.fam { identifier := "F1" }]
      { fams_ids := ["F1"] } { fams_ids := ["F1"], fams_list := ["F1"] }
      { fams_ids := ["F1"], fams_list := ["F1", "F1"] } rfl rfl rfl,
   c2_resolve_second_duplicates.2 [Node.indi { identifier := "P1" }]
      { child_ids := ["P1"] } { child_ids := ["P1"], child_list := ["P1"] }
      { child_ids := ["P1"], child_list := ["P1", "P1"] } rfl rfl rfl⟩

/-- A segment stays a segment after prepending material. -/
theorem contains_append_left {α : Type} (n : List α) {l m : List α} (h : l <:+: m) :
    l <:+: n ++ m := by
  obtain ⟨s, t, rfl⟩ := h
  exact ⟨n ++ s, t, by simp⟩

/-- A list is a segment of itself followed by anything. -/
theorem contains_self_append {α : Type} (l n : List α) : l <:+: l ++ n :=
  ⟨[], n, by simp⟩

/-- C5: counterexample.  For a sex value other than `M`, `F`, `U`
(such as `X`), the color dictionary lookup raises `KeyError`
(modelled as `none`); the claimed result `black` is not produced. -/
theorem c5_color_counterexample :
    Individual.get_color { sex := "X" } = none
    ∧ Individual.get_color { sex := "X" } ≠ some "black" := by
  exact ⟨rfl, by decide⟩

/-- C5: amended.  `get_color` returns `blue` when the sex upper-cases
to `M`, `pink` for `F`, `black` when the sex is unset or upper-cases
to `U`; for every other value the lookup raises `KeyError` instead of
returning `black`.  An individual with unset sex whose candidate
image file does not exist receives the `placeholder-u.png` image path,
which appears in its label. -/
theorem c5_color_theorem (i : Individual) :
    (py_toUpper i.sex = "M" → i.get_color = some "blue")
    ∧ (py_toUpper i.sex = "F" → i.get_color = some "pink")
    ∧ (i.sex = "" → i.get_color = some "black")
    ∧ (py_toUpper i.sex = "U" → i.get_color = some "black")
    ∧ (i.sex ≠ "" → py_toUpper i.sex ≠ "M" → py_toUpper i.sex ≠ "F" →
        py_toUpper i.sex ≠ "U" → i.get_color = none)
    ∧ (∀ (file_exists : String → Bool) (install_dir image_dir name_order : String),
        i.sex = "" →
        file_exists (path_join image_dir (i.forename ++ " " ++ i.surname)
            ++ " " ++ i.config.birth ++ ".jpg") = false →
        i.image_path file_exists install_dir image_dir
            = get_abspath install_dir "placeholder-u.png"
        ∧ "placeholder-u.png".data
            <:+: (i.get_label file_exists install_dir image_dir name_order).data) := by
  refine ⟨fun h => ?_, fun h => ?_, fun h => ?_, fun h => ?_,
    fun h1 h2 h3 h4 => ?_, fun fe inst dir ord hs hf => ?_⟩
  · have hs : ¬(i.sex = "") := fun h0 => by rw [h0] at h; exact absurd h (by decide)
    simp [Individual.get_color, hs, h]
  · have hs : ¬(i.sex = "") := fun h0 => by rw [h0] at h; exact absurd h (by decide)
    simp [Individual.get_color, hs, h]
  · simp [Individual.get_color, h]
  · by_cases hs : i.sex = ""
    · simp [Individual.get_color, hs]
    · simp [Individual.get_color, hs, h]
  · simp [Individual.get_color, h1, h2, h3, h4]
  · have hpath : i.image_path fe inst dir = get_abspath inst "placeholder-u.png" := by
      simp [Individual.image_path, hf, hs]
    refine ⟨hpath, ?_⟩
    have habs : get_abspath inst "placeholder-u.png"
        = (if inst = "" ∨ py_endsWith inst "/" = true
           then inst ++ "placeholder-u.png"
           else inst ++ "/" ++ "placeholder-u.png") := by
      unfold get_abspath path_join
      rw [if_neg (by decide : ¬(py_startsWith "placeholder-u.png" "/" = true)),
        if_neg (by decide : ¬(py_startsWith "placeholder-u.png" "/" = true))]
    unfold Individual.get_label
    rw [hpath, habs]
    by_cases hc : inst = "" ∨ py_endsWith inst "/" = true
    · rw [if_pos hc]
      by_cases hb : ord = "big" <;>
        simp only [hb, if_true, if_false, ite_true, ite_false,
          String.data_append, List.append_assoc] <;>
      · exact contains_append_left _ (contains_append_left _ (contains_append_left _
          (contains_self_append _ _)))
    · rw [if_neg hc]
      by_cases hb : ord = "big" <;>
        simp only [hb, if_true, if_false, ite_true, ite_false,
          String.data_append, List.append_assoc] <;>
      · exact contains_append_left _ (contains_append_left _ (contains_append_left _
          (contains_append_left _ (contains_self_append _ _))))

/-- C5 witness: the color and the placeholder path of an individual
with every field unset. -/
theorem c5_color_witness :
    Individual.get_color {} = some "black"
    ∧ "placeholder-u.png".data
        <:+: (Individual.get_label {} (fun _ => false) "/inst" "dir" "little").data :=
  ⟨(c5_color_theorem {}).2.2.1 rfl,
   ((c5_color_theorem {}).2.2.2.2.2 (fun _ => false) "/inst" "dir" "little" rfl rfl).2⟩

/-- `reset_flags` only touches the two flags. -/
theorem reset_flags_entities (s : ParserState) :
    (reset_flags s).individual = s.individual ∧ (reset_flags s).family = s.family
      ∧ (reset_flags s).graph = s.graph := by
  unfold reset_flags
  repeat' split <;> simp -failIfUnchanged

/-- Under the at-most-one-flag invariant, `__reset_flags` clears the
one flag that was set, leaving both flags clear. -/
theorem reset_flags_clears (s : ParserState) (h : s.in_birt = false ∨ s.in_deat = false) :
    (reset_flags s).in_birt = false ∧ (reset_flags s).in_deat = false := by
  cases hb : s.in_birt <;> cases hd : s.in_deat <;>
    simp_all [reset_flags]

/-- The level-0 handler never touches the birth/death flags. -/
theorem handle_level0_flags (s : ParserState) (l : String) :
    (handle_level0 s l).in_birt = s.in_birt ∧ (handle_level0 s l).in_deat = s.in_deat := by
  simp only [handle_level0]
  repeat' split <;> simp -failIfUnchanged

/-- The level-2 handler never touches the birth/death flags. -/
theorem handle_level2_flags (s : ParserState) (l : String) :
    (handle_level2 s l).in_birt = s.in_birt ∧ (handle_level2 s l).in_deat = s.in_deat := by
  simp only [handle_level2]
  repeat' split <;> simp -failIfUnchanged

/-- Starting from both flags clear, the secondary handler sets at
most one of them. -/
theorem handle_individual_config_flags (s : ParserState) (l : String)
    (hb : s.in_birt = false) (hd : s.in_deat = false) :
    (handle_individual_config s l).in_birt = false
      ∨ (handle_individual_config s l).in_deat = false := by
  simp only [handle_individual_config]
  repeat' split <;> simp -failIfUnchanged [hb, hd]

/-- The level-1 handler preserves the at-most-one-flag invariant:
the reset leaves both flags clear, after which at most one is set. -/
theorem handle_level1_flags (s : ParserState) (l : String)
    (h : s.in_birt = false ∨ s.in_deat = false) :
    (handle_level1 s l).in_birt = false ∨ (handle_level1 s l).in_deat = false := by
  obtain ⟨hb, hd⟩ := reset_flags_clears s h
  simp only [handle_level1]
  repeat' split <;>
    first
      | exact handle_individual_config_flags _ _ hb hd
      | simp -failIfUnchanged [hb, hd]

/-- One line preserves the at-most-one-flag invariant. -/
theorem processLine_flags (s s' : ParserState) (raw : String)
    (h : s.in_birt = false ∨ s.in_deat = false)
    (hp : processLine s raw = .ok s') :
    s'.in_birt = false ∨ s'.in_deat = false := by
  simp only [processLine] at hp
  split at hp
  · rw [Except.ok.inj hp] at h; exact h
  · split at hp
    · exact Except.noConfusion hp
    · rw [← Except.ok.inj hp]
      split
      · rcases handle_level0_flags s _ with ⟨h1, h2⟩
        rw [h1, h2]; exact h
      · split
        · exact handle_level1_flags s _ h
        · split
          · rcases handle_level2_flags s _ with ⟨h1, h2⟩
            rw [h1, h2]; exact h
          · exact h

/-- C9: after processing any prefix of the input, at most one of the
parser's `in_birt` and `in_deat` flags is set: entering a birth or
death sub-record first clears whichever flag was set, so the two
flags are never simultaneously true. -/
theorem c9_flags_theorem (lines : List String) (s : ParserState)
    (h : lines.foldlM processLine initState = .ok s) :
    ¬(s.in_birt = true ∧ s.in_deat = true) := by
  suffices H : ∀ (ls : List String) (s0 st : ParserState),
      (s0.in_birt = false ∨ s0.in_deat = false) →
      ls.foldlM processLine s0 = .ok st →
      (st.in_birt = false ∨ st.in_deat = false) by
    rcases H lines initState s (Or.inl rfl) h with h' | h' <;> simp [h']
  intro ls
  induction ls with
  | nil =>
    intro s0 st h0 hf
    rw [← Except.ok.inj hf]; exact h0
  | cons a l ih =>
    intro s0 st h0 hf
    simp only [List.foldlM_cons] at hf
    cases hp : processLine s0 a with
    | error e => rw [hp] at hf; exact Except.noConfusion hf
    | ok s1 =>
      rw [hp] at hf
      exact ih s1 st (processLine_flags s0 s1 a h0 hp) hf

/-- C9 witness: the invariant after a concrete prefix that sets the
birth flag. -/
theorem c9_flags_witness :
    ¬((⟨none, none, [], true, false⟩ : ParserState).in_birt = true
      ∧ (⟨none, none, [], true, false⟩ : ParserState).in_deat = true) :=
  c9_flags_theorem ["1 BIRT"] ⟨none, none, [], true, false⟩ rfl

/-- A level-0 line always leaves at most one in-progress entity: it
first flushes both slots and then fills at most one of them. -/
theorem handle_level0_entities (s : ParserState) (l : String) :
    (handle_level0 s l).individual = none ∨ (handle_level0 s l).family = none := by
  simp only [handle_level0]
  repeat' split <;> simp_all -failIfUnchanged

/-- The secondary handler never creates or destroys an in-progress
entity; it only updates the individual's note or the flags. -/
theorem handle_individual_config_entities (s : ParserState) (l : String) :
    (handle_individual_config s l).individual.isSome = s.individual.isSome
      ∧ (handle_individual_config s l).family.isSome = s.family.isSome := by
  simp only [handle_individual_config]
  constructor <;>
    · repeat' split <;> simp -failIfUnchanged [Option.isSome_map]

/-- The level-1 handler never creates or destroys an in-progress
entity; it only updates whichever already exists. -/
theorem handle_level1_entities (s : ParserState) (l : String) :
    (handle_level1 s l).individual.isSome = s.individual.isSome
      ∧ (handle_level1 s l).family.isSome = s.family.isSome := by
  obtain ⟨hei, hef, _⟩ := reset_flags_entities s
  simp only [handle_level1]
  constructor <;>
    · repeat' split <;>
        first
          | exact (handle_individual_config_entities _ _).1.trans (by rw [hei])
          | exact (handle_individual_config_entities _ _).2.trans (by rw [hef])
          | simp -failIfUnchanged [hei, hef, Option.isSome_map]

/-- The level-2 handler never creates or destroys an in-progress
entity. -/
theorem handle_level2_entities (s : ParserState) (l : String) :
    (handle_level2 s l).individual.isSome = s.individual.isSome
      ∧ (handle_level2 s l).family.isSome = s.family.isSome := by
  simp only [handle_level2]
  constructor <;>
    · repeat' split <;> simp -failIfUnchanged [Option.isSome_map]

/-- One line preserves the at-most-one-in-progress-entity invariant. -/
theorem processLine_entities (s s' : ParserState) (raw : String)
    (h : s.individual = none ∨ s.family = none)
    (hp : processLine s raw = .ok s') :
    s'.individual = none ∨ s'.family = none := by
  simp only [processLine] at hp
  split at hp
  · rw [Except.ok.inj hp] at h; exact h
  · split at hp
    · exact Except.noConfusion hp
    · rw [← Except.ok.inj hp]
      split
      · exact handle_level0_entities s _
      · have key : ∀ t : ParserState,
            t.individual.isSome = s.individual.isSome →
            t.family.isSome = s.family.isSome →
            t.individual = none ∨ t.family = none := by
          intro t h1 h2
          rcases h with h | h
          · left
            rw [← Option.not_isSome_iff_eq_none] at h ⊢
            rw [h1]; exact h
          · right
            rw [← Option.not_isSome_iff_eq_none] at h ⊢
            rw [h2]; exact h
        split
        · exact key _ (handle_level1_entities s _).1 (handle_level1_entities s _).2
        · split
          · exact key _ (handle_level2_entities s _).1 (handle_level2_entities s _).2
          · exact h

/-- C10: at every point during tokenization at most one in-progress
entity exists: the parser's `individual` and `family` slots are never
both occupied, so entities are finalized into the graph one at a
time. -/
theorem c10_entities_theorem (lines : List String) (s : ParserState)
    (h : lines.foldlM processLine initState = .ok s) :
    ¬(s.individual.isSome = true ∧ s.family.isSome = true) := by
  suffices H : ∀ (ls : List String) (s0 st : ParserState),
      (s0.individual = none ∨ s0.family = none) →
      ls.foldlM processLine s0 = .ok st →
      (st.individual = none ∨ st.family = none) by
    rcases H lines initState s (Or.inl rfl) h with h' | h' <;> simp [h']
  intro ls
  induction ls with
  | nil =>
    intro s0 st h0 hf
    rw [← Except.ok.inj hf]; exact h0
  | cons a l ih =>
    intro s0 st h0 hf
    simp only [List.foldlM_cons] at hf
    cases hp : processLine s0 a with
    | error e => rw [hp] at hf; exact Except.noConfusion hf
    | ok s1 =>
      rw [hp] at hf
      exact ih s1 st (processLine_entities s0 s1 a h0 hp) hf

/-- C10 witness: the invariant after a concrete prefix that opens an
individual record. -/
theorem c10_entities_witness :
    ¬((⟨some { identifier := "I1" }, none, [], false, false⟩ : ParserState).individual.isSome = true
      ∧ (⟨some { identifier := "I1" }, none, [], false, false⟩ : ParserState).family.isSome = true) :=
  c10_entities_theorem ["0 @I1@ INDI"] ⟨some { identifier := "I1" }, none, [], false, false⟩ rfl

/-- The enqueue loop preserves the traversal invariant: the result
plus queue stays duplicate-free, and everything in it stays inside
the visited set (which only grows). -/
theorem bfs_enqueue_invariant (d : Nat) :
    ∀ (ns visited : List String) (queue : List (String × Nat)) (ret : List String),
      (ret ++ queue.map Prod.fst).Nodup →
      (∀ x ∈ ret ++ queue.map Prod.fst, x ∈ visited) →
      (ret ++ (bfs_enqueue d ns (visited, queue)).2.map Prod.fst).Nodup
        ∧ (∀ x ∈ ret ++ (bfs_enqueue d ns (visited, queue)).2.map Prod.fst,
            x ∈ (bfs_enqueue d ns (visited, queue)).1) := by
  intro ns
  induction ns with
  | nil => intro visited queue ret h1 h2; exact ⟨h1, h2⟩
  | cons n ns ih =>
    intro visited queue ret h1 h2
    by_cases hn : n ∈ visited
    · simp only [bfs_enqueue]
      rw [if_pos hn]
      exact ih visited queue ret h1 h2
    · simp only [bfs_enqueue]
      rw [if_neg hn]
      apply ih
      · have hn2 : n ∉ ret ++ queue.map Prod.fst := fun hc => hn (h2 n hc)
        have : ((ret ++ queue.map Prod.fst) ++ [n]).Nodup := by
          rw [List.nodup_append]
          exact ⟨h1, List.nodup_singleton n,
            fun a ha han => hn2 ((List.mem_singleton.mp han) ▸ ha)⟩
        simpa [List.append_assoc] using this
      · intro x hx
        simp only [List.map_append, List.map_cons, List.map_nil, List.mem_append,
          List.mem_singleton] at hx
        rcases hx with h | h | h
        · exact List.mem_append.mpr (Or.inl (h2 x (List.mem_append.mpr (Or.inl h))))
        · exact List.mem_append.mpr (Or.inl (h2 x (List.mem_append.mpr (Or.inr h))))
        · subst h; simp

/-- The traversal loop never emits a node twice: the visited check
before enqueueing keeps the accumulated result duplicate-free. -/
theorem bfs_loop_nodup (g : List Node) (fd : Nat) :
    ∀ (fuel : Nat) (visited : List String) (queue : List (String × Nat)) (ret : List String),
      (ret ++ queue.map Prod.fst).Nodup →
      (∀ x ∈ ret ++ queue.map Prod.fst, x ∈ visited) →
      (bfs_loop g fd fuel visited queue ret).Nodup := by
  intro fuel
  induction fuel with
  | zero =>
    intro v q ret h1 _
    simp only [bfs_loop]
    exact h1.of_append_left
  | succ n ih =>
    intro v q ret h1 h2
    rcases q with _ | ⟨⟨nid, nd⟩, rest⟩
    · simp only [bfs_loop]
      simpa using h1
    · simp only [bfs_loop]
      split
      · exact h1.of_append_left
      · have h1' : ((ret ++ [nid]) ++ rest.map Prod.fst).Nodup := by
          simpa [List.append_assoc] using h1
        have h2' : ∀ x ∈ (ret ++ [nid]) ++ rest.map Prod.fst, x ∈ v := by
          intro x hx
          apply h2
          simpa [List.append_assoc] using hx
        obtain ⟨hq1, hq2⟩ :=
          bfs_enqueue_invariant (nd + 1) (neighbours_of g nid) v rest (ret ++ [nid]) h1' h2'
        exact ih _ _ _ hq1 hq2

/-- C7: the sequence returned by `bfs` never contains a node twice:
for every graph, every family depth and every root — including graphs
where a node is reachable along two distinct paths — the result has
no duplicate identifiers, because visited-set membership is checked
before enqueueing, so each node is enqueued at most once. -/
theorem c7_bfs_nodup_theorem (g : List Node) (familydepth : Nat) (root : String) :
    (bfs g familydepth root).Nodup := by
  apply bfs_loop_nodup g familydepth (bfs_fuel g) [root] [(root, 0)] []
  · simp
  · intro x hx
    simpa using hx

/-- The enqueue loop appends to the queue, and everything it appends
carries the depth it was given. -/
theorem bfs_enqueue_spec (d : Nat) :
    ∀ (ns visited : List String) (queue : List (String × Nat)),
      ∃ extra, (bfs_enqueue d ns (visited, queue)).2 = queue ++ extra
        ∧ ∀ e ∈ extra, e.2 = d := by
  intro ns
  induction ns with
  | nil =>
    intro visited queue
    exact ⟨[], by simp [bfs_enqueue], by simp⟩
  | cons n ns ih =>
    intro visited queue
    by_cases hn : n ∈ visited
    · simp only [bfs_enqueue]
      rw [if_pos hn]
      exact ih visited queue
    · simp only [bfs_enqueue]
      rw [if_neg hn]
      obtain ⟨extra, he, hd⟩ := ih (visited ++ [n]) (queue ++ [(n, d)])
      refine ⟨(n, d) :: extra, by rw [he]; simp, ?_⟩
      intro e hein
      rcases List.mem_cons.mp hein with h | h
      · rw [h]
      · exact hd e h

/-- Once every queued entry is beyond the depth cutoff, the loop
returns the accumulated result unchanged (the first dequeue triggers
the early return; an empty queue or exhausted fuel also stops). -/
theorem bfs_loop_cut (g : List Node) (fd : Nat) (fuel : Nat) (visited : List String)
    (queue : List (String × Nat)) (ret : List String)
    (h : ∀ e ∈ queue, fd * 2 + 1 < e.2) :
    bfs_loop g fd fuel visited queue ret = ret := by
  cases fuel with
  | zero => simp only [bfs_loop]
  | succ n =>
    cases queue with
    | nil => simp only [bfs_loop]
    | cons e rest =>
      obtain ⟨nid, nd⟩ := e
      simp only [bfs_loop]
      rw [if_pos]
      exact h (nid, nd) (List.mem_cons_self _ _)

/-- One iteration of the loop below the cutoff: dequeue, append to
the result, and enqueue the unvisited neighbours one level deeper. -/
theorem bfs_loop_step (g : List Node) (fd fuel : Nat) (visited : List String)
    (nid : String) (nd : Nat) (rest : List (String × Nat)) (ret : List String)
    (hle : nd ≤ fd * 2 + 1) :
    bfs_loop g fd (fuel + 1) visited ((nid, nd) :: rest) ret
      = bfs_loop g fd fuel
          (bfs_enqueue (nd + 1) (neighbours_of g nid) (visited, rest)).1
          (bfs_enqueue (nd + 1) (neighbours_of g nid) (visited, rest)).2
          (ret ++ [nid]) := by
  simp only [bfs_loop]
  rw [if_neg (by omega)]

/-- C6: amended.  With `familydepth = 0`, BFS from a root family with
a resolved wife and a resolved husband — three distinct nodes — and
no children returns exactly those three nodes: the family, the wife,
the husband.  (When the root family has children they are visited as
well, at depth 1; see the counterexample.) -/
theorem c6_bfs_theorem (g : List Node) (f : Family) (r w u : String)
    (hroot : lookup_node g r = some (Node.fam f))
    (hw : f.wife = some w) (hu : f.husb = some u) (hc : f.child_list = [])
    (hwu : w ≠ u) (hwr : w ≠ r) (hur : u ≠ r) :
    bfs g 0 r = [r, w, u] := by
  have hmem : Node.fam f ∈ g := List.mem_of_find?_eq_some hroot
  have hfuel : 4 ≤ bfs_fuel g := by
    unfold bfs_fuel
    have h1 : 1 ≤ g.length := List.length_pos.mpr (List.ne_nil_of_mem hmem)
    have hx : (Node.fam f).get_neighbours.length = 2 := by
      simp [Node.get_neighbours, hw, hu, hc]
    have hmm : (Node.fam f).get_neighbours.length
        ∈ g.map (fun n => n.get_neighbours.length) := List.mem_map_of_mem _ hmem
    have h2 : 2 ≤ (g.map (fun n => n.get_neighbours.length)).sum := by
      rw [← hx]
      exact List.single_le_sum (fun x _ => Nat.zero_le x) _ hmm
    omega
  have hnb : neighbours_of g r = [w, u] := by
    unfold neighbours_of lookup_node
    unfold lookup_node at hroot
    rw [hroot]
    simp [Node.get_neighbours, hw, hu, hc]
  have henq : bfs_enqueue (0 + 1) [w, u] ([r], [])
      = ([r, w, u], [(w, 1), (u, 1)]) := by
    simp [bfs_enqueue, hwr, hwu, hur, Ne.symm hwu]
  unfold bfs
  rw [show bfs_fuel g = 3 + (bfs_fuel g - 4) + 1 by omega]
  rw [bfs_loop_step g 0 (3 + (bfs_fuel g - 4)) [r] r 0 [] [] (by omega)]
  rw [hnb, henq]
  show bfs_loop g 0 (3 + (bfs_fuel g - 4)) [r, w, u] [(w, 1), (u, 1)] [r] = [r, w, u]
  rw [show 3 + (bfs_fuel g - 4) = 2 + (bfs_fuel g - 4) + 1 by omega]
  rw [bfs_loop_step g 0 (2 + (bfs_fuel g - 4)) [r, w, u] w 1 [(u, 1)] [r] (by omega)]
  obtain ⟨ex1, he1, hd1⟩ :=
    bfs_enqueue_spec (1 + 1) (neighbours_of g w) [r, w, u] [(u, 1)]
  rw [he1, List.singleton_append]
  rw [show 2 + (bfs_fuel g - 4) = 1 + (bfs_fuel g - 4) + 1 by omega]
  rw [bfs_loop_step g 0 (1 + (bfs_fuel g - 4)) _ u 1 ex1 ([r] ++ [w]) (by omega)]
  obtain ⟨ex2, he2, hd2⟩ :=
    bfs_enqueue_spec (1 + 1) (neighbours_of g u)
      (bfs_enqueue (1 + 1) (neighbours_of g w) ([r, w, u], [(u, 1)])).1 ex1
  rw [he2]
  rw [bfs_loop_cut g 0 _ _ (ex1 ++ ex2) ([r] ++ [w] ++ [u]) ?cond]
  · simp
  case cond =>
    intro e hein
    rcases List.mem_append.mp hein with h | h
    · have := hd1 e h; omega
    · have := hd2 e h; omega

/-- C6: counterexample.  On a resolved graph whose root family also
has a child, `bfs` with `familydepth = 0` returns four nodes — the
child sits at depth 1, below the cutoff `0 * 2 + 1` — not the three
nodes the claim promises for every root family with a wife and a
husband. -/
theorem c6_bfs_counterexample :
    resolve_graph g6 = .ok rg6
    ∧ bfs rg6 0 "F1" = ["F1", "P1", "P2", "P3"]
    ∧ bfs rg6 0 "F1" ≠ ["F1", "P1", "P2"] := by
  refine ⟨rfl, rfl, by decide⟩

/-- C6 witness: the amended theorem at a concrete childless family. -/
theorem c6_bfs_witness : bfs g6w 0 "F1" = ["F1", "P1", "P2"] :=
  c6_bfs_theorem g6w { identifier := "F1", wife := some "P1", husb := some "P2" }
    "F1" "P1" "P2" rfl rfl rfl rfl (by decide) (by decide) (by decide)

/-- The edge section is the concatenation, in subgraph order, of each
family's edge lines. -/
theorem store_edges_eq (sub : List Node) :
    store_edges sub = sub.flatMap node_edges := by
  suffices H : ∀ (l : List Node) (acc : List String),
      l.foldl (fun acc n =>
        match n with
        | Node.indi _ => acc
        | Node.fam f => acc ++ f.edges) acc = acc ++ l.flatMap node_edges by
    simpa [store_edges] using H sub []
  intro l
  induction l with
  | nil => intro acc; simp
  | cons n t ih =>
    intro acc
    cases n with
    | indi i => simp [ih, node_edges]
    | fam f => simp [ih, node_edges]

/-- C4: amended.  The serializer emits exactly one undirected edge
(`dir=none`, no arrowhead) per resolved wife, husband and child
relationship of each family node of the subgraph, in subgraph order —
regardless of whether the opposite endpoint belongs to the subgraph
(the membership restriction in the claim fails; see the
counterexample). -/
theorem c4_edges_theorem (subgraph : List Node) :
    store_edges subgraph = subgraph.flatMap node_edges
    ∧ ∀ e ∈ store_edges subgraph, ∃ f, Node.fam f ∈ subgraph
        ∧ ((∃ w, f.wife = some w ∧ e = w ++ " -> " ++ f.identifier ++ " [dir=none];\n")
          ∨ (∃ u, f.husb = some u ∧ e = u ++ " -> " ++ f.identifier ++ " [dir=none];\n")
          ∨ (∃ ch, ch ∈ f.child_list
              ∧ e = f.identifier ++ " -> " ++ ch ++ " [dir=none];\n")) := by
  refine ⟨store_edges_eq subgraph, fun e he => ?_⟩
  rw [store_edges_eq] at he
  obtain ⟨n, hn, he2⟩ := List.mem_flatMap.mp he
  cases n with
  | indi i => simp [node_edges] at he2
  | fam f =>
    refine ⟨f, hn, ?_⟩
    simp only [node_edges, Family.edges, List.mem_append] at he2
    rcases he2 with (hw | hu) | hch
    · cases hwv : f.wife with
      | none => rw [hwv] at hw; simp at hw
      | some w =>
        rw [hwv] at hw
        simp only [List.mem_singleton] at hw
        exact Or.inl ⟨w, rfl, hw⟩
    · cases huv : f.husb with
      | none => rw [huv] at hu; simp at hu
      | some u =>
        rw [huv] at hu
        simp only [List.mem_singleton] at hu
        exact Or.inr (Or.inl ⟨u, rfl, hu⟩)
    · obtain ⟨ch, hc2, he3⟩ := List.mem_map.mp hch
      exact Or.inr (Or.inr ⟨ch, hc2, he3.symm⟩)

/-- C4: counterexample.  The serializer emits the child edge
`F1 -> P3` although no node of the subgraph carries the identifier
`P3`: an emitted edge can reference a node outside the subgraph. -/
theorem c4_edges_counterexample :
    "F1 -> P3 [dir=none];\n" ∈ store_edges sub4
    ∧ sub4.map Node.get_identifier = ["F1", "P1", "P2"]
    ∧ "P3" ∉ sub4.map Node.get_identifier := by
  refine ⟨by decide, rfl, by decide⟩

/-- C4 witness: the per-relationship edge characterization at a
concrete one-family subgraph. -/
theorem c4_edges_witness :
    ∃ f, Node.fam f ∈ sub4
        ∧ ((∃ w, f.wife = some w
              ∧ "P1 -> F1 [dir=none];\n" = w ++ " -> " ++ f.identifier ++ " [dir=none];\n")
          ∨ (∃ u, f.husb = some u
              ∧ "P1 -> F1 [dir=none];\n" = u ++ " -> " ++ f.identifier ++ " [dir=none];\n")
          ∨ (∃ ch, ch ∈ f.child_list
              ∧ "P1 -> F1 [dir=none];\n"
                  = f.identifier ++ " -> " ++ ch ++ " [dir=none];\n")) :=
  (c4_edges_theorem sub4).2 "P1 -> F1 [dir=none];\n" (by decide)
